import Mathlib

/-!
A verification development for the Roshar character-creator web application.

The embedding below translates the application's core logic from the
JavaScript source (the per-field version-history store, the version
navigator, the multi-strategy AI-response parser, the bio-generation retry
loop, and the bulk field-update routine) into executable Lean definitions,
and proves the specified properties about them.

Conventions of the embedding:
* JavaScript strings are Lean `String`s (often manipulated as `List Char`).
* The mutable per-field maps `fieldHistory` and `currentVersionIndex`,
  together with each field's DOM element (its displayed value and visual
  CSS class), are bundled into `FieldState`; the global keyed maps become
  `AppState`, a function from field keys to `Option FieldState` (a missing
  key models a JavaScript `undefined` entry).
* A JavaScript throw is modelled with `Except`; property access on
  `undefined` becomes the `JsErr.typeError` error value.
* `Date.now` style timestamps are threaded in as an explicit `now : Nat`
  argument; nothing in the verified properties depends on them.
* `JSON.parse` (a host builtin, not repository code) is modelled by the
  executable recursive-descent parser `jsonParse` below, which follows the
  strict JSON grammar; its error values are plain strings.
-/

/-! ### JavaScript string primitives -/

/-- The whitespace class used by the source's `trim()` calls and the `\s`
regex class (space, tab, newline, carriage return, vertical tab, form
feed). -/
def jsWs (c : Char) : Bool :=
  c = ' ' || c = '\t' || c = '\n' || c = '\x0d' || c = '\x0b' || c = '\x0c'

/-- `String.prototype.trim`, on character lists. -/
def trimL (l : List Char) : List Char :=
  ((l.dropWhile jsWs).reverse.dropWhile jsWs).reverse

/-- `String.prototype.trim` on strings. -/
def jsTrim (s : String) : String := (trimL s.toList).asString

/-- Whether `pre` is a prefix of `l` (character-list literal matching, used
for the anchored regex literals of the source). -/
def startsWithL : List Char → List Char → Bool
  | [], _ => true
  | _ :: _, [] => false
  | p :: ps, c :: cs => p = c && startsWithL ps cs

/-- The backtick character. -/
def bt : Char := '\x60'

/-- The character list of the opening fence `backtick backtick backtick json`
matched by the regex on line 53 of the source. -/
def fjson : List Char := [bt, bt, bt, 'j', 's', 'o', 'n']

/-- The character list of a bare triple-backtick fence. -/
def fbare : List Char := [bt, bt, bt]

/-- Regex `^(backtick)(backtick)(backtick)json\s*` replaced by the empty
string: when the text starts with the 7-character json fence, drop it and
the following whitespace run. -/
def dropOpenJson (l : List Char) : List Char :=
  if startsWithL fjson l then (l.drop 7).dropWhile jsWs else l

/-- Regex `^(backtick)(backtick)(backtick)\s*` replaced by the empty string. -/
def dropOpenBare (l : List Char) : List Char :=
  if startsWithL fbare l then (l.drop 3).dropWhile jsWs else l

/-- Regex `\s*(backtick)(backtick)(backtick)$` replaced by the empty string:
when the text ends with a triple backtick, drop it and the whitespace run
immediately before it. -/
def dropClose (l : List Char) : List Char :=
  if startsWithL fbare l.reverse then ((l.reverse.drop 3).dropWhile jsWs).reverse
  else l

/-- The clean-up performed by `parseAIResponse` before any strategy runs
(source lines 50-54): trim, strip a json-tagged fence pair, then strip a
bare fence pair. -/
def cleanupL (l : List Char) : List Char :=
  dropClose (dropOpenBare (dropClose (dropOpenJson (trimL l))))

/-- String-level wrapper of `cleanupL`. -/
def cleanup (s : String) : String := (cleanupL s.toList).asString

/-! ### Field history store (source lines 28-41, 122-126, 629-678) -/

/-- The provenance tag stored in a version's `type` property: the source
uses the strings `'blank'`, `'user'` and `'ai'`. -/
inductive VType where
  | blank : VType
  | user : VType
  | ai : VType
deriving DecidableEq

/-- One entry of `fieldHistory[field]`: an object
`(value, timestamp, type)`. -/
structure Version where
  value : String
  timestamp : Nat
  type : VType
deriving DecidableEq

/-- The visual CSS-class state of a field's element: no class yet, the
`ai-generated` highlight, or the neutral `user-edited` class. -/
inductive Visual where
  | plain : Visual
  | aiGenerated : Visual
  | userEdited : Visual
deriving DecidableEq

/-- Per-field application state: the `fieldHistory[field]` array, the
`currentVersionIndex[field]` number, and the field's DOM element state
(displayed `value` and visual class). -/
structure FieldState where
  history : List Version
  cursor : Int
  display : String
  visual : Visual
deriving DecidableEq

/-- The provenance computed by `originalValue.trim() ? 'user' : 'blank'`. -/
def provenanceOf (originalValue : String) : VType :=
  if jsTrim originalValue = "" then VType.blank else VType.user

/-- The first block of `saveAIVersionWithOriginal` (source lines 639-659):
push the original value when the history is empty or when it differs from
the last stored value. -/
def pushOriginal (originalValue : String) (now : Nat) (history : List Version) :
    List Version :=
  let origVersion : Version := ⟨originalValue, now, provenanceOf originalValue⟩
  match history.getLast? with
  | none => history ++ [origVersion]
  | some lastVersion =>
    if originalValue ≠ lastVersion.value then history ++ [origVersion]
    else history

/-- The second block of `saveAIVersionWithOriginal` (source lines 661-671):
push the AI value when it differs from the (re-read) last stored value. -/
def pushAI (aiValue : String) (now : Nat) (h1 : List Version) : List Version :=
  match h1.getLast? with
  | none => h1
  | some lastVersion =>
    if aiValue ≠ lastVersion.value then h1 ++ [(⟨aiValue, now, VType.ai⟩ : Version)]
    else h1

/-- The whole history update performed by `saveAIVersionWithOriginal`
(source lines 629-678): the two blocks in sequence. -/
def saveHist (originalValue aiValue : String) (now : Nat) (history : List Version) :
    List Version :=
  pushAI aiValue now (pushOriginal originalValue now history)

/-- `saveAIVersionWithOriginal` on one field's state: update the history and
set `currentVersionIndex[field] = history.length - 1`.  The display is not
touched here; the caller (`updateBioFields`) updates it. -/
def saveField (originalValue aiValue : String) (now : Nat) (fs : FieldState) :
    FieldState :=
  let h := saveHist originalValue aiValue now fs.history
  { fs with history := h, cursor := (h.length : Int) - 1 }

/-- `updateFieldVisualState` (source lines 748-758): type `'ai'` gets the
highlight, anything else the neutral class. -/
def visualOf (t : VType) : Visual :=
  match t with
  | VType.ai => Visual.aiGenerated
  | _ => Visual.userEdited

/-- Fallback for indexing; never reached because `navigateField` indexes
only after its range guard. -/
def defaultVersion : Version := ⟨"", 0, VType.blank⟩

/-- `navigateVersion` (source lines 688-725) on one field's state: no-op for
histories of length at most one, otherwise move the cursor by `direction`
when the new index is in range, updating the displayed value and visual
state from the stored version. -/
def navigateField (direction : Int) (fs : FieldState) : FieldState :=
  if fs.history.length ≤ 1 then fs
  else
    let newIndex : Int := fs.cursor + direction
    if 0 ≤ newIndex ∧ newIndex < (fs.history.length : Int) then
      let v := fs.history.getD newIndex.toNat defaultVersion
      { fs with cursor := newIndex, display := v.value, visual := visualOf v.type }
    else fs

/-- The prev/next button state and the `position/total` counter shown while
the navigation block is visible. -/
structure NavButtons where
  prevDisabled : Bool
  nextDisabled : Bool
  counter : Int × Nat
deriving DecidableEq

/-- The observable result of `updateVersionControls` (source lines 728-745):
the controls block is shown with button states and a counter when the
history has more than one entry, and hidden entirely otherwise. -/
structure Controls where
  visible : Bool
  nav : Option NavButtons
deriving DecidableEq

/-- `updateVersionControls` as a view of the field state. -/
def updateVersionControls (fs : FieldState) : Controls :=
  if fs.history.length > 1 then
    { visible := true,
      nav := some
        { prevDisabled := fs.cursor == 0,
          nextDisabled := fs.cursor == (fs.history.length : Int) - 1,
          counter := (fs.cursor + 1, fs.history.length) } }
  else { visible := false, nav := none }

/-- Whether the previous-version button is shown and enabled. -/
def canGoPrevious (fs : FieldState) : Bool :=
  match (updateVersionControls fs).nav with
  | some b => !b.prevDisabled
  | none => false

/-- Whether the next-version button is shown and enabled. -/
def canGoNext (fs : FieldState) : Bool :=
  match (updateVersionControls fs).nav with
  | some b => !b.nextDisabled
  | none => false

/-- Append one version (spec vocabulary for the comparison definition). -/
def appendVersion (v : Version) (h : List Version) : List Version := h ++ [v]

/-- The value of the chronologically last version, if any (spec vocabulary). -/
def lastValue? (h : List Version) : Option String := h.getLast?.map (fun v => v.value)

/-- Steps 1 and 2 of the specification's `recordGeneration`: if the history
is empty, append the original value (provenance `Blank` when it trims to
the empty string, `UserEdited` otherwise); else append it only when it
differs from the last version's value. -/
def specStep12 (originalValue : String) (now : Nat) (h : List Version) :
    List Version :=
  let specProv := if jsTrim originalValue = "" then VType.blank else VType.user
  if h.isEmpty then appendVersion ⟨originalValue, now, specProv⟩ h
  else if lastValue? h ≠ some originalValue then
    appendVersion ⟨originalValue, now, specProv⟩ h
  else h

/-- Step 3 of the specification's `recordGeneration`: append the AI value
when it differs from the re-read last version's value. -/
def specStep3 (aiValue : String) (now : Nat) (h : List Version) : List Version :=
  if lastValue? h ≠ some aiValue then appendVersion ⟨aiValue, now, VType.ai⟩ h
  else h

/-- The `recordGeneration` operation exactly as the specification words it
(spec section 4.1, steps 1-4); stated separately so that the implementation
`saveField` can be proved to refine it. -/
def recordGenerationSpec (originalValue aiValue : String) (now : Nat)
    (fs : FieldState) : FieldState :=
  let h2 := specStep3 aiValue now (specStep12 originalValue now fs.history)
  { fs with history := h2, cursor := (h2.length : Int) - 1 }

/-- The per-field invariant on the cursor: whenever the history is nonempty,
the cursor is a valid index into it. -/
def CursorInv (fs : FieldState) : Prop :=
  fs.history ≠ [] → 0 ≤ fs.cursor ∧ fs.cursor < (fs.history.length : Int)

/-- Adjacent-duplicate freedom: no two chronologically adjacent versions
share a `value` string. -/
def AdjDistinct (h : List Version) : Prop :=
  List.Chain' (fun a b => a.value ≠ b.value) h

/-! ### Model of the host `JSON.parse` builtin -/

/-- JSON values.  Numbers keep their lexeme (the verified properties never
depend on numeric semantics); object members keep source order. -/
inductive Json where
  | null : Json
  | bool : Bool → Json
  | num : String → Json
  | str : String → Json
  | arr : List Json → Json
  | obj : List (String × Json) → Json

/-- JSON's own whitespace class (space, tab, newline, carriage return). -/
def jsonWs (c : Char) : Bool :=
  c = ' ' || c = '\t' || c = '\n' || c = '\x0d'

/-- Decode a single-character JSON escape. -/
def escChar (c : Char) : Option Char :=
  if c = '\x22' then some '\x22'
  else if c = '\x5c' then some '\x5c'
  else if c = '/' then some '/'
  else if c = 'b' then some '\x08'
  else if c = 'f' then some '\x0c'
  else if c = 'n' then some '\n'
  else if c = 'r' then some '\x0d'
  else if c = 't' then some '\t'
  else none

/-- Hexadecimal digit value. -/
def hexVal (c : Char) : Option Nat :=
  if '0' ≤ c ∧ c ≤ '9' then some (c.toNat - '0'.toNat)
  else if 'a' ≤ c ∧ c ≤ 'f' then some (c.toNat - 'a'.toNat + 10)
  else if 'A' ≤ c ∧ c ≤ 'F' then some (c.toNat - 'A'.toNat + 10)
  else none

/-- Parse the body of a JSON string literal (after the opening quote),
returning the decoded characters and the rest of the input. -/
def parseStrChars : List Char → Except String (List Char × List Char)
  | [] => Except.error "Unterminated string in JSON"
  | c :: rest =>
    if c = '\x22' then Except.ok ([], rest)
    else if c = '\x5c' then
      match rest with
      | [] => Except.error "Unterminated string in JSON"
      | e :: rest2 =>
        if e = 'u' then
          match rest2 with
          | h1 :: h2 :: h3 :: h4 :: rest3 =>
            match hexVal h1, hexVal h2, hexVal h3, hexVal h4 with
            | some a, some b, some c2, some d =>
              (parseStrChars rest3).map
                (fun p => (Char.ofNat (((a * 16 + b) * 16 + c2) * 16 + d) :: p.1, p.2))
            | _, _, _, _ => Except.error "Bad Unicode escape in JSON"
          | _ => Except.error "Bad Unicode escape in JSON"
        else
          match escChar e with
          | some d => (parseStrChars rest2).map (fun p => (d :: p.1, p.2))
          | none => Except.error "Bad escaped character in JSON"
    else if c.toNat < 32 then Except.error "Bad control character in JSON string"
    else (parseStrChars rest).map (fun p => (c :: p.1, p.2))

/-- Leading decimal digits and the rest. -/
def digitsSplit (cs : List Char) : List Char × List Char :=
  (cs.takeWhile Char.isDigit, cs.dropWhile Char.isDigit)

/-- Optional fraction part of a JSON number. -/
def parseFrac (cs : List Char) : Except String (List Char × List Char) :=
  match cs with
  | '.' :: r =>
    let d := (digitsSplit r).1
    if d = [] then Except.error "Bad number in JSON"
    else Except.ok ('.' :: d, (digitsSplit r).2)
  | _ => Except.ok ([], cs)

/-- Optional exponent part of a JSON number. -/
def parseExp (cs : List Char) : Except String (List Char × List Char) :=
  match cs with
  | c :: r =>
    if c = 'e' ∨ c = 'E' then
      let sr : List Char × List Char :=
        match r with
        | s :: r2 => if s = '+' ∨ s = '-' then ([s], r2) else ([], r)
        | [] => ([], r)
      let d := (digitsSplit sr.2).1
      if d = [] then Except.error "Bad number in JSON"
      else Except.ok (c :: sr.1 ++ d, (digitsSplit sr.2).2)
    else Except.ok ([], cs)
  | [] => Except.ok ([], [])

/-- Parse a JSON number, returning its lexeme. -/
def parseNumber (cs : List Char) : Except String (String × List Char) :=
  let sr : List Char × List Char :=
    match cs with
    | '-' :: r => (['-'], r)
    | _ => ([], cs)
  let ip := digitsSplit sr.2
  if ip.1 = [] then Except.error "Unexpected token in JSON"
  else if 1 < ip.1.length ∧ ip.1.head? = some '0' then
    Except.error "Unexpected number in JSON"
  else
    match parseFrac ip.2 with
    | Except.error e => Except.error e
    | Except.ok fp =>
      match parseExp fp.2 with
      | Except.error e => Except.error e
      | Except.ok ep =>
        Except.ok ((sr.1 ++ ip.1 ++ fp.1 ++ ep.1).asString, ep.2)

mutual

/-- Recursive-descent JSON value parser (fuelled; the top-level caller
supplies more fuel than any input can consume). -/
def parseVal (fuel : Nat) (cs : List Char) : Except String (Json × List Char) :=
  match fuel with
  | 0 => Except.error "JSON input too deeply nested"
  | f + 1 =>
    match cs.dropWhile jsonWs with
    | [] => Except.error "Unexpected end of JSON input"
    | c :: rest =>
      if c = '\x22' then
        match parseStrChars rest with
        | Except.error e => Except.error e
        | Except.ok p => Except.ok (Json.str p.1.asString, p.2)
      else if c = '\x7b' then
        match rest.dropWhile jsonWs with
        | '\x7d' :: r2 => Except.ok (Json.obj [], r2)
        | r1 => parseObjTail f r1 []
      else if c = '[' then
        match rest.dropWhile jsonWs with
        | ']' :: r2 => Except.ok (Json.arr [], r2)
        | r1 => parseArrTail f r1 []
      else if startsWithL ['t', 'r', 'u', 'e'] (c :: rest) then
        Except.ok (Json.bool true, (c :: rest).drop 4)
      else if startsWithL ['f', 'a', 'l', 's', 'e'] (c :: rest) then
        Except.ok (Json.bool false, (c :: rest).drop 5)
      else if startsWithL ['n', 'u', 'l', 'l'] (c :: rest) then
        Except.ok (Json.null, (c :: rest).drop 4)
      else if c = '-' ∨ c.isDigit then
        match parseNumber (c :: rest) with
        | Except.error e => Except.error e
        | Except.ok p => Except.ok (Json.num p.1, p.2)
      else Except.error "Unexpected token in JSON"

/-- Members of a JSON object after the opening brace (first member not yet
read; leading whitespace already consumed). -/
def parseObjTail (fuel : Nat) (cs : List Char) (acc : List (String × Json)) :
    Except String (Json × List Char) :=
  match fuel with
  | 0 => Except.error "JSON input too deeply nested"
  | f + 1 =>
    match cs with
    | '\x22' :: rest =>
      match parseStrChars rest with
      | Except.error e => Except.error e
      | Except.ok kp =>
        match kp.2.dropWhile jsonWs with
        | ':' :: r2 =>
          match parseVal f r2 with
          | Except.error e => Except.error e
          | Except.ok vp =>
            match vp.2.dropWhile jsonWs with
            | ',' :: r4 =>
              parseObjTail f (r4.dropWhile jsonWs) (acc ++ [(kp.1.asString, vp.1)])
            | '\x7d' :: r4 => Except.ok (Json.obj (acc ++ [(kp.1.asString, vp.1)]), r4)
            | _ => Except.error "Expected comma or closing brace in JSON object"
        | _ => Except.error "Expected colon in JSON object"
    | _ => Except.error "Expected property name in JSON object"

/-- Elements of a JSON array after the opening bracket (first element not
yet read). -/
def parseArrTail (fuel : Nat) (cs : List Char) (acc : List Json) :
    Except String (Json × List Char) :=
  match fuel with
  | 0 => Except.error "JSON input too deeply nested"
  | f + 1 =>
    match parseVal f cs with
    | Except.error e => Except.error e
    | Except.ok vp =>
      match vp.2.dropWhile jsonWs with
      | ',' :: r => parseArrTail f r (acc ++ [vp.1])
      | ']' :: r => Except.ok (Json.arr (acc ++ [vp.1]), r)
      | _ => Except.error "Expected comma or closing bracket in JSON array"

end

/-- The model of `JSON.parse`: parse one value and require only whitespace
after it. -/
def jsonParse (s : String) : Except String Json :=
  let cs := s.toList
  match parseVal (2 * cs.length + 4) cs with
  | Except.error e => Except.error e
  | Except.ok p =>
    if p.2.dropWhile jsonWs = [] then Except.ok p.1
    else Except.error "Unexpected token after JSON value"

/-! ### Response Parser strategies (source lines 44-107) -/

/-- Strategy 2's first replace (source line 64): every backslash-quote pair
becomes a plain quote character.  The source's other two replaces on lines
65-66 substitute the escaped-newline and escaped-tab sequences with
themselves and are the identity. -/
def fixEscapesL : List Char → List Char
  | '\x5c' :: '\x22' :: rest => '\x22' :: fixEscapesL rest
  | c :: rest => c :: fixEscapesL rest
  | [] => []

/-- Strategy B text repair on strings. -/
def fixEscapesS (s : String) : String := (fixEscapesL s.toList).asString

/-- The callback's first replace in strategy 3 (source line 76): each
backslash-quote pair becomes an apostrophe. -/
def replBackQuote : List Char → List Char
  | '\x5c' :: '\x22' :: rest => '\x27' :: replBackQuote rest
  | c :: rest => c :: replBackQuote rest
  | [] => []

/-- The callback's second replace in strategy 3: each quote becomes an
apostrophe. -/
def replQuote : List Char → List Char
  | '\x22' :: rest => '\x27' :: replQuote rest
  | c :: rest => c :: replQuote rest
  | [] => []

/-- Strategy 3 (source lines 71-80): regex
`"([^"]*\\[^"]*[^"]*?)"` with a callback.  A match is a quoted run (up to
the next quote) containing at least one backslash; the callback rewrites
the run's inner quotes (of which, by construction, there are none) to
apostrophes.  On failure at a position the scan advances one character,
exactly as a global regex replace does. -/
def fixDialogueL (fuel : Nat) (cs : List Char) : List Char :=
  match fuel with
  | 0 => cs
  | f + 1 =>
    match cs with
    | [] => []
    | c :: rest =>
      if c = '\x22' then
        let content := rest.takeWhile (fun x => x ≠ '\x22')
        match rest.drop content.length with
        | '\x22' :: r2 =>
          if content.contains '\x5c' then
            ('\x22' :: replQuote (replBackQuote content)) ++ '\x22' :: fixDialogueL f r2
          else c :: fixDialogueL f rest
        | _ => c :: fixDialogueL f rest
      else c :: fixDialogueL f rest

/-- Strategy C text repair on strings. -/
def fixDialogueS (s : String) : String :=
  (fixDialogueL (s.toList.length + 1) s.toList).asString

/-- The 14-character literal `"catchphrase":` of strategy 4's regex. -/
def catchKey : List Char :=
  ['\x22', 'c', 'a', 't', 'c', 'h', 'p', 'h', 'r', 'a', 's', 'e', '\x22', ':']

/-- Search the body of strategy 4's quoted value for the lazily matched
group 1: the shortest quote-free run followed by a maximal run of one or
more backslashes that is immediately followed by a quote.  Returns group 1
and the input after that quote. -/
def findG1 (fuel : Nat) (cs : List Char) : Option (List Char × List Char) :=
  match fuel with
  | 0 => none
  | f + 1 =>
    match cs with
    | [] => none
    | c :: rest =>
      if c = '\x22' then none
      else if c = '\x5c' then
        let run := (c :: rest).takeWhile (fun x => x = '\x5c')
        match (c :: rest).drop run.length with
        | '\x22' :: r2 => some ([], r2)
        | after =>
          match findG1 f after with
          | some p => some (run ++ p.1, p.2)
          | none => none
      else
        match findG1 f rest with
        | some p => some (c :: p.1, p.2)
        | none => none

/-- Strategy 4 (source lines 83-89): regex
`"catchphrase":\s*"([^"]*?)\\+"([^"]*?)"` replaced by
`"catchphrase": "$1'$2"`.  Group 2 is the quote-free run up to the next
quote. -/
def fixCatchL (fuel : Nat) (cs : List Char) : List Char :=
  match fuel with
  | 0 => cs
  | f + 1 =>
    match cs with
    | [] => []
    | c :: rest =>
      if startsWithL catchKey cs then
        match (cs.drop 14).dropWhile jsWs with
        | '\x22' :: tail =>
          match findG1 (tail.length + 1) tail with
          | some g1p =>
            let g2 := g1p.2.takeWhile (fun x => x ≠ '\x22')
            match g1p.2.drop g2.length with
            | '\x22' :: r3 =>
              (catchKey ++ ' ' :: '\x22' :: g1p.1 ++ '\x27' :: g2 ++ ['\x22'])
                ++ fixCatchL f r3
            | _ => c :: fixCatchL f rest
          | none => c :: fixCatchL f rest
        | _ => c :: fixCatchL f rest
      else c :: fixCatchL f rest

/-- Strategy D text repair on strings. -/
def fixCatchS (s : String) : String :=
  (fixCatchL (s.toList.length + 1) s.toList).asString

/-- How `parseAIResponse` fails: the guard for a missing or non-string
argument (source lines 45-47), or exhaustion of every strategy (source
lines 100-104).  In the latter case the failure site emits the cleaned
text (`console.error` of `cleanText`) and throws an `Error` whose message
embeds the final strategy's parse error; `unparseable` records both
pieces of diagnostic data. -/
inductive ParseErr where
  | invalidInput : ParseErr
  | unparseable (cleanText : String) (message : String) : ParseErr
deriving DecidableEq

/-- The multi-strategy parser `parseAIResponse` (source lines 44-107):
clean the text, then try the four strategies in order and return the first
successful parse. -/
def parseAIResponse (outputText : String) : Except ParseErr Json :=
  if outputText = "" then Except.error ParseErr.invalidInput
  else
    let cleanText := cleanup outputText
    match jsonParse cleanText with
    | Except.ok result => Except.ok result
    | Except.error _ =>
      match jsonParse (fixEscapesS cleanText) with
      | Except.ok result => Except.ok result
      | Except.error _ =>
        match jsonParse (fixDialogueS cleanText) with
        | Except.ok result => Except.ok result
        | Except.error _ =>
          match jsonParse (fixCatchS cleanText) with
          | Except.ok result => Except.ok result
          | Except.error e =>
            Except.error
              (ParseErr.unparseable cleanText
                ("JSON parsing failed after 4 attempts: " ++ e))

/-- The text a failed parse carries, if the failure is the
all-strategies-exhausted case. -/
def carriedRaw : Except ParseErr Json → Option String
  | Except.error (ParseErr.unparseable r _) => some r
  | _ => none

/-! ### Global field maps and the orchestrator glue
(source lines 28-41, 122-126, 336-459, 629-685, 761-781) -/

/-- The declared bio field set (source lines 28-33). -/
def BIO_FIELDS : List String :=
  ["appearance", "background", "personality", "affiliations",
   "catchphrase", "languageQuirks", "superstitions", "diet",
   "secrets", "characterFlaws", "whatExcites", "dynamicGoals",
   "mostWant", "wontDo"]

/-- A JavaScript runtime failure: reading a property of `undefined` (what
actually happens when `fieldHistory[field]` is accessed for a key outside
the declared set) throws a `TypeError`.  The specification's error
taxonomy names this failure mode `UnknownField`. -/
inductive JsErr where
  | typeError : JsErr
deriving DecidableEq

/-- The whole application's field-keyed state: `fieldHistory`,
`currentVersionIndex` and the per-field DOM state, all keyed by field name;
`none` models a key with no entry (`undefined`). -/
structure AppState where
  fields : String → Option FieldState

/-- `saveAIVersionWithOriginal(field, originalValue, aiValue)` at the global
level (source lines 629-678): reading `fieldHistory[field]` for an unknown
key yields `undefined` and the subsequent `.length` access throws. -/
def saveAIVersionWithOriginal (field originalValue aiValue : String) (now : Nat)
    (st : AppState) : Except JsErr AppState :=
  match st.fields field with
  | none => Except.error JsErr.typeError
  | some fs =>
    Except.ok
      ⟨fun f => if f = field then some (saveField originalValue aiValue now fs)
                else st.fields f⟩

/-- `navigateVersion(field, direction)` at the global level (source lines
688-725). -/
def navigateVersion (field : String) (direction : Int) (st : AppState) :
    Except JsErr AppState :=
  match st.fields field with
  | none => Except.error JsErr.typeError
  | some fs =>
    Except.ok
      ⟨fun f => if f = field then some (navigateField direction fs) else st.fields f⟩

/-- A well-formed application state has an entry exactly for each declared
bio field, as established by the initialisation loops on source lines 39-41
and 124-126. -/
def ValidState (st : AppState) : Prop :=
  ∀ f, (st.fields f).isSome = BIO_FIELDS.contains f

/-- A field's state at start-up: empty history, index 0, empty display, no
visual class. -/
def initFieldState : FieldState := ⟨[], 0, "", Visual.plain⟩

/-- The state after the initialisation loops. -/
def initState : AppState :=
  ⟨fun f => if BIO_FIELDS.contains f then some initFieldState else none⟩

/-- The per-field effect of `updateBioFields` for a field with a truthy
parsed value (source lines 766-777): capture the current display as the
original value, run `saveAIVersionWithOriginal`, then set the display to
the AI value and highlight it. -/
def applyAIValue (aiValue : String) (now : Nat) (fs : FieldState) : FieldState :=
  let fs1 := saveField fs.display aiValue now fs
  { fs1 with display := aiValue, visual := Visual.aiGenerated }

/-- One iteration of the `updateBioFields` loop (source lines 762-780): a
missing or falsy (empty-string) value for the field skips it entirely, as
does a missing element. -/
def updateBioFieldsStep (bioData : String → Option String) (now : Nat)
    (st : AppState) (field : String) : AppState :=
  match bioData field with
  | none => st
  | some v =>
    if v = "" then st
    else
      match st.fields field with
      | none => st
      | some fs =>
        ⟨fun f => if f = field then some (applyAIValue v now fs) else st.fields f⟩

/-- `updateBioFields(bioData)` (source lines 761-781): fold the step over
the declared field list. -/
def updateBioFields (bioData : String → Option String) (now : Nat)
    (st : AppState) : AppState :=
  BIO_FIELDS.foldl (updateBioFieldsStep bioData now) st

/-! ### The bio-generation retry loop (source lines 336-459) -/

/-- The pre-uploaded reference document list (source line 318). -/
def pdfFileIds : List String := ["file-3VQDhPG6m61qHiGuwfFZ2x"]

/-- `maxAttempts` (source line 337). -/
def maxAttempts : Nat := 3

/-- The fixed delay between attempts, in milliseconds (source line 457). -/
def retryDelayMs : Nat := 1000

/-- The reference files attached to a given attempt (source lines 342-351):
attempt 2 narrows to the first file only when more than one file was
configured; attempt 3 sends none; otherwise the full list is used. -/
def attemptFileIds (attemptCount : Nat) (ids : List String) : List String :=
  if attemptCount = 2 ∧ 1 < ids.length then ids.take 1
  else if attemptCount = 3 then []
  else ids

/-- Externally visible events of the retry loop: an API request carrying
its attempt number and attached files, or a wait between attempts. -/
inductive GenEvent where
  | request : Nat → List String → GenEvent
  | wait : Nat → GenEvent
deriving DecidableEq

/-- Whether an event is an API request. -/
def isRequest : GenEvent → Bool
  | GenEvent.request _ _ => true
  | GenEvent.wait _ => false

/-- The `while (attemptCount < maxAttempts)` loop of `generateBio` (source
lines 340-459), over an oracle giving each attempt's network outcome:
record the request, stop on success, throw after the final failed attempt,
otherwise wait the fixed delay and retry. -/
def goAttempts (outcome : Nat → Bool) (k : Nat) : Nat → List GenEvent × Except String Nat
  | 0 => ([], Except.error "retry loop exhausted")
  | fuel + 1 =>
    let ev := GenEvent.request k (attemptFileIds k pdfFileIds)
    if outcome k then ([ev], Except.ok k)
    else if k = maxAttempts then
      ([ev], Except.error ("API request failed after " ++ toString maxAttempts
        ++ " attempts"))
    else
      let rest := goAttempts outcome (k + 1) fuel
      (ev :: GenEvent.wait retryDelayMs :: rest.1, rest.2)

/-- The full trace and result of the retry loop for one bio-generation
request. -/
def generateBioTrace (outcome : Nat → Bool) : List GenEvent × Except String Nat :=
  goAttempts outcome 1 maxAttempts

/-! ### Shared helper lemmas -/

/-- The first block never produces an empty history. -/
theorem pushOriginal_ne_nil (o : String) (now : Nat) (h : List Version) :
    pushOriginal o now h ≠ [] := by
  unfold pushOriginal
  cases hL : h.getLast? with
  | none => simp
  | some lv =>
    have hne : h ≠ [] := by rintro rfl; simp at hL
    dsimp only
    split <;> simp [hne]

/-- The second block keeps a nonempty history nonempty. -/
theorem pushAI_ne_nil (a : String) (now : Nat) (h : List Version) (hne : h ≠ []) :
    pushAI a now h ≠ [] := by
  unfold pushAI
  cases hL : h.getLast? with
  | none => exact hne
  | some lv => dsimp only; split <;> simp [hne]

/-- The history update never produces an empty history. -/
theorem saveHist_ne_nil (o a : String) (now : Nat) (h : List Version) :
    saveHist o a now h ≠ [] :=
  pushAI_ne_nil a now _ (pushOriginal_ne_nil o now h)

/-- Navigation never changes the history. -/
theorem navigateField_history (d : Int) (fs : FieldState) :
    (navigateField d fs).history = fs.history := by
  by_cases h1 : fs.history.length ≤ 1
  · simp [navigateField, h1]
  · by_cases h2 : 0 ≤ fs.cursor + d ∧ fs.cursor + d < (fs.history.length : Int) <;>
      simp [navigateField, h1, h2]

/-- The first block coincides with the specification's steps 1 and 2. -/
theorem pushOriginal_eq_spec (o : String) (now : Nat) (h : List Version) :
    pushOriginal o now h = specStep12 o now h := by
  unfold pushOriginal specStep12 appendVersion lastValue? provenanceOf
  cases hL : h.getLast? with
  | none =>
    have hnil : h = [] := List.getLast?_eq_none_iff.mp hL
    subst hnil
    simp
  | some lv =>
    have hne : h ≠ [] := by rintro rfl; simp at hL
    have hie : h.isEmpty = false := by simp [List.isEmpty_iff, hne]
    by_cases ho : o = lv.value
    · simp [hL, hie, ho]
    · simp [hL, hie, ho, Ne.symm ho]

/-- The second block coincides with the specification's step 3 on the
nonempty histories it is actually applied to. -/
theorem pushAI_eq_spec (a : String) (now : Nat) (h : List Version) (hne : h ≠ []) :
    pushAI a now h = specStep3 a now h := by
  unfold pushAI specStep3 appendVersion lastValue?
  cases hL : h.getLast? with
  | none => exact absurd (List.getLast?_eq_none_iff.mp hL) hne
  | some lv =>
    by_cases ha : a = lv.value
    · simp [hL, ha]
    · simp [hL, ha, Ne.symm ha]

/-- The implementation's history update coincides with the specification's
steps 1-3. -/
theorem saveHist_eq_spec (o a : String) (now : Nat) (h : List Version) :
    saveHist o a now h = specStep3 a now (specStep12 o now h) := by
  rw [saveHist, pushAI_eq_spec a now _ (pushOriginal_ne_nil o now h),
    pushOriginal_eq_spec]

/-- Appending a version whose value differs from the last value preserves
adjacent-duplicate freedom. -/
theorem adjDistinct_append (h : List Version) (v : Version)
    (hd : AdjDistinct h) (hlast : ∀ x ∈ h.getLast?, x.value ≠ v.value) :
    AdjDistinct (h ++ [v]) := by
  rw [AdjDistinct, List.chain'_append]
  refine ⟨hd, List.chain'_singleton v, ?_⟩
  intro x hx y hy
  simp only [List.head?_cons, Option.mem_def, Option.some.injEq] at hy
  subst hy
  exact hlast x hx

/-- The first block preserves adjacent-duplicate freedom. -/
theorem pushOriginal_adjDistinct (o : String) (now : Nat) (h : List Version)
    (hd : AdjDistinct h) : AdjDistinct (pushOriginal o now h) := by
  unfold pushOriginal
  cases hL : h.getLast? with
  | none =>
    have hnil : h = [] := List.getLast?_eq_none_iff.mp hL
    subst hnil
    simp [AdjDistinct]
  | some lv =>
    dsimp only
    by_cases ho : o = lv.value
    · simp [ho, hd]
    · simp only [ne_eq, ho, not_false_eq_true, if_pos]
      refine adjDistinct_append h _ hd ?_
      intro x hx
      rw [hL] at hx
      simp only [Option.mem_def, Option.some.injEq] at hx
      subst hx
      exact fun hc => ho hc.symm

/-- The second block preserves adjacent-duplicate freedom. -/
theorem pushAI_adjDistinct (a : String) (now : Nat) (h : List Version)
    (hd : AdjDistinct h) : AdjDistinct (pushAI a now h) := by
  unfold pushAI
  cases hL : h.getLast? with
  | none => exact hd
  | some lv =>
    dsimp only
    by_cases ha : a = lv.value
    · simp [ha, hd]
    · simp only [ne_eq, ha, not_false_eq_true, if_pos]
      refine adjDistinct_append h _ hd ?_
      intro x hx
      rw [hL] at hx
      simp only [Option.mem_def, Option.some.injEq] at hx
      subst hx
      exact fun hc => ha hc.symm

/-- After the first block with original value `v`, the last stored value is
`v` itself. -/
theorem pushOriginal_lastValue (v : String) (now : Nat) (h : List Version) :
    lastValue? (pushOriginal v now h) = some v := by
  unfold pushOriginal lastValue?
  cases hL : h.getLast? with
  | none => simp [List.getLast?_concat]
  | some lv =>
    dsimp only
    by_cases hv : v = lv.value
    · simp [hv, hL]
    · simp [hv, List.getLast?_concat]

/-- The second block is the identity when the AI value already equals the
last stored value. -/
theorem pushAI_of_lastValue (a : String) (now : Nat) (h : List Version)
    (hl : lastValue? h = some a) : pushAI a now h = h := by
  unfold pushAI
  unfold lastValue? at hl
  cases hL : h.getLast? with
  | none => rfl
  | some lv =>
    rw [hL] at hl
    simp only [Option.map_some', Option.some.injEq] at hl
    simp [hl]

/-- The first block appends at most one version. -/
theorem pushOriginal_length (o : String) (now : Nat) (h : List Version) :
    (pushOriginal o now h).length ≤ h.length + 1 := by
  unfold pushOriginal
  cases hL : h.getLast? with
  | none => simp
  | some lv => dsimp only; split <;> simp

/-! ### Claim theorems: field history store -/

/-- Claim C1: for every field, `saveAIVersionWithOriginal` performs exactly
the specified steps in order — append the original value when the history
is empty (provenance `Blank` when it trims to empty, `UserEdited`
otherwise) or when it differs from the last version's value, then append
the AI value when it differs from the re-read last value, then set the
cursor to the new last index; in particular a first-ever
`recordGeneration(f, "", "X")` yields the history
`(("", Blank), ("X", AiGenerated))` with the cursor at index 1. -/
theorem c1_recordGeneration_steps :
    (∀ (fs : FieldState) (o a : String) (now : Nat),
        saveField o a now fs = recordGenerationSpec o a now fs)
    ∧ ((saveField "" "X" 0 initFieldState).history.map
          (fun v => (v.value, v.type))
        = [("", VType.blank), ("X", VType.ai)])
    ∧ (saveField "" "X" 0 initFieldState).cursor = 1 := by
  refine ⟨fun fs o a now => ?_, by decide, by decide⟩
  unfold saveField recordGenerationSpec
  rw [saveHist_eq_spec]

/-- Claim C2: histories never contain two chronologically adjacent versions
with the same value (comparing values only), the store and navigation
operations preserve that invariant, and `recordGeneration(f, v, v)` appends
at most one version. -/
theorem c2_duplicate_suppression :
    (∀ (h : List Version) (o a : String) (now : Nat),
        AdjDistinct h → AdjDistinct (saveHist o a now h))
    ∧ (∀ (fs : FieldState) (d : Int),
        AdjDistinct fs.history → AdjDistinct (navigateField d fs).history)
    ∧ (∀ (h : List Version) (v : String) (now : Nat),
        (saveHist v v now h).length ≤ h.length + 1) := by
  refine ⟨fun h o a now hd => ?_, fun fs d hd => ?_, fun h v now => ?_⟩
  · exact pushAI_adjDistinct a now _ (pushOriginal_adjDistinct o now h hd)
  · rwa [navigateField_history]
  · rw [saveHist, pushAI_of_lastValue v now _ (pushOriginal_lastValue v now h)]
    exact pushOriginal_length v now h

/-- Witness for C2 at a concrete state: a two-entry history stays
adjacent-duplicate free through a save, and a same-value save grows a
one-entry history by at most one. -/
theorem c2_duplicate_suppression_witness :
    AdjDistinct (saveHist "c" "d" 2 [⟨"a", 0, VType.user⟩, ⟨"b", 1, VType.ai⟩])
    ∧ AdjDistinct
        (navigateField (-1)
          ⟨[⟨"a", 0, VType.user⟩, ⟨"b", 1, VType.ai⟩], 1, "b",
            Visual.aiGenerated⟩).history
    ∧ (saveHist "a" "a" 1 [⟨"a", 0, VType.user⟩]).length ≤ 2 :=
  ⟨c2_duplicate_suppression.1 _ "c" "d" 2 (by simp [AdjDistinct]),
   c2_duplicate_suppression.2.1 _ (-1) (by simp [AdjDistinct]),
   c2_duplicate_suppression.2.2 [⟨"a", 0, VType.user⟩] "a" 1⟩

/-- Claim C4: whenever a field's history is nonempty its cursor is a valid
index; `recordGeneration` always reestablishes this by setting the cursor
to the new last index, and navigation preserves it. -/
theorem c4_cursor_in_range :
    (∀ (fs : FieldState) (o a : String) (now : Nat),
        CursorInv (saveField o a now fs)
        ∧ (saveField o a now fs).cursor
            = ((saveField o a now fs).history.length : Int) - 1)
    ∧ (∀ (fs : FieldState) (d : Int), CursorInv fs → CursorInv (navigateField d fs)) := by
  constructor
  · intro fs o a now
    have hne := saveHist_ne_nil o a now fs.history
    have hpos : 0 < (saveHist o a now fs.history).length := List.length_pos.mpr hne
    refine ⟨fun _ => ?_, rfl⟩
    unfold saveField
    constructor <;> dsimp <;> omega
  · intro fs d hinv
    unfold CursorInv at hinv ⊢
    rw [navigateField_history]
    intro hne
    by_cases h1 : fs.history.length ≤ 1
    · simpa [navigateField, h1] using hinv hne
    · by_cases h2 : 0 ≤ fs.cursor + d ∧ fs.cursor + d < (fs.history.length : Int)
      · simp [navigateField, h1, h2]
      · simpa [navigateField, h1, h2] using hinv hne

/-- Witness for C4 at a concrete state: navigating forward from index 0 of
a two-entry history keeps the cursor in range. -/
theorem c4_cursor_in_range_witness :
    CursorInv
      (navigateField 1
        ⟨[⟨"a", 0, VType.user⟩, ⟨"b", 1, VType.ai⟩], 0, "a", Visual.userEdited⟩) :=
  c4_cursor_in_range.2 _ 1 (by intro _; exact ⟨by decide, by decide⟩)

/-- An out-of-range navigation request changes nothing. -/
theorem navigateField_out_of_range (d : Int) (fs : FieldState)
    (h : ¬ (0 ≤ fs.cursor + d ∧ fs.cursor + d < (fs.history.length : Int))) :
    navigateField d fs = fs := by
  unfold navigateField
  split
  · rfl
  · exact if_neg h

/-- Claim C5: navigating back at cursor 0 or forward at the last index is a
complete no-op (history, cursor, display and visual state unchanged, no
wrap-around), and the navigation block is hidden (with both directions
unavailable) exactly when the history has at most one entry. -/
theorem c5_navigation_noops_and_gating :
    (∀ fs : FieldState, fs.cursor = 0 → navigateField (-1) fs = fs)
    ∧ (∀ fs : FieldState,
        fs.cursor = (fs.history.length : Int) - 1 → navigateField 1 fs = fs)
    ∧ (∀ fs : FieldState, fs.history.length ≤ 1 →
        canGoPrevious fs = false ∧ canGoNext fs = false
        ∧ (updateVersionControls fs).visible = false)
    ∧ (∀ fs : FieldState, 1 < fs.history.length →
        (updateVersionControls fs).visible = true) := by
  refine ⟨fun fs hc => ?_, fun fs hc => ?_, fun fs hlen => ?_, fun fs hlen => ?_⟩
  · exact navigateField_out_of_range (-1) fs (by omega)
  · exact navigateField_out_of_range 1 fs (by omega)
  · have h1 : ¬ 1 < fs.history.length := by omega
    refine ⟨?_, ?_, ?_⟩ <;> simp [canGoPrevious, canGoNext, updateVersionControls, h1]
  · simp [updateVersionControls, hlen]

/-- Witness for C5 at concrete states: both boundary no-ops on a two-entry
history, the hidden controls of a one-entry history, and the visible
controls of a two-entry history. -/
theorem c5_navigation_noops_and_gating_witness :
    navigateField (-1)
        ⟨[⟨"a", 0, VType.user⟩, ⟨"b", 1, VType.ai⟩], 0, "a", Visual.userEdited⟩
      = ⟨[⟨"a", 0, VType.user⟩, ⟨"b", 1, VType.ai⟩], 0, "a", Visual.userEdited⟩
    ∧ navigateField 1
        ⟨[⟨"a", 0, VType.user⟩, ⟨"b", 1, VType.ai⟩], 1, "b", Visual.aiGenerated⟩
      = ⟨[⟨"a", 0, VType.user⟩, ⟨"b", 1, VType.ai⟩], 1, "b", Visual.aiGenerated⟩
    ∧ canGoPrevious ⟨[⟨"a", 0, VType.user⟩], 0, "a", Visual.userEdited⟩ = false
    ∧ (updateVersionControls
        ⟨[⟨"a", 0, VType.user⟩, ⟨"b", 1, VType.ai⟩], 1, "b",
          Visual.aiGenerated⟩).visible = true :=
  ⟨c5_navigation_noops_and_gating.1 _ rfl,
   c5_navigation_noops_and_gating.2.1 _ (by decide),
   (c5_navigation_noops_and_gating.2.2.1 _ (by decide)).1,
   c5_navigation_noops_and_gating.2.2.2 _ (by decide)⟩

/-! ### Claim theorems: response parser -/

/-- Claim C3: the parser tries its repair strategies in the fixed order
direct parse, escaped-quote normalisation, quoted-run rewrite,
catchphrase-specific repair, returning the first successful parse without
merging strategies; in particular any input that is valid JSON after fence
stripping is parsed by strategy A and returned verbatim. -/
theorem c3_strategy_order (t : String) (j : Json) :
    (jsonParse (cleanup t) = Except.ok j → parseAIResponse t = Except.ok j)
    ∧ (∀ e1, t ≠ "" → jsonParse (cleanup t) = Except.error e1 →
        jsonParse (fixEscapesS (cleanup t)) = Except.ok j →
        parseAIResponse t = Except.ok j)
    ∧ (∀ e1 e2, t ≠ "" → jsonParse (cleanup t) = Except.error e1 →
        jsonParse (fixEscapesS (cleanup t)) = Except.error e2 →
        jsonParse (fixDialogueS (cleanup t)) = Except.ok j →
        parseAIResponse t = Except.ok j)
    ∧ (∀ e1 e2 e3, t ≠ "" → jsonParse (cleanup t) = Except.error e1 →
        jsonParse (fixEscapesS (cleanup t)) = Except.error e2 →
        jsonParse (fixDialogueS (cleanup t)) = Except.error e3 →
        jsonParse (fixCatchS (cleanup t)) = Except.ok j →
        parseAIResponse t = Except.ok j) := by
  refine ⟨fun h1 => ?_, fun e1 ht h1 h2 => ?_, fun e1 e2 ht h1 h2 h3 => ?_,
    fun e1 e2 e3 ht h1 h2 h3 h4 => ?_⟩
  · by_cases ht : t = ""
    · subst ht
      rw [show jsonParse (cleanup "")
          = Except.error "Unexpected end of JSON input" from rfl] at h1
      exact Except.noConfusion h1
    · simp [parseAIResponse, ht, h1]
  · simp [parseAIResponse, ht, h1, h2]
  · simp [parseAIResponse, ht, h1, h2, h3]
  · simp [parseAIResponse, ht, h1, h2, h3, h4]

/-- Witness for C3 at concrete inputs: a fenced valid JSON object is parsed
by strategy A, and an over-escaped object on which strategy A fails is
recovered by strategy B. -/
theorem c3_strategy_order_witness :
    parseAIResponse "```json\n\x7b\"a\": \"b\"\x7d\n```"
      = Except.ok (Json.obj [("a", Json.str "b")])
    ∧ parseAIResponse "\x7b\"a\": \x5c\"b\x5c\"\x7d"
      = Except.ok (Json.obj [("a", Json.str "b")]) :=
  ⟨(c3_strategy_order "```json\n\x7b\"a\": \"b\"\x7d\n```"
      (Json.obj [("a", Json.str "b")])).1 rfl,
   (c3_strategy_order "\x7b\"a\": \x5c\"b\x5c\"\x7d"
      (Json.obj [("a", Json.str "b")])).2.1 "Unexpected token in JSON"
      (by decide) rfl rfl⟩

/-- Claim C6 (amended): when all four strategies fail, `parseAIResponse`
fails with the unparseable-response error carrying the cleaned
(fence-stripped, trimmed) text together with the last strategy's
underlying parse error.  The original raw text itself is not what the
failure carries: see `c6_counterexample`. -/
theorem c6_unparseable_diagnostics (t : String) (e1 e2 e3 e4 : String)
    (ht : t ≠ "")
    (h1 : jsonParse (cleanup t) = Except.error e1)
    (h2 : jsonParse (fixEscapesS (cleanup t)) = Except.error e2)
    (h3 : jsonParse (fixDialogueS (cleanup t)) = Except.error e3)
    (h4 : jsonParse (fixCatchS (cleanup t)) = Except.error e4) :
    parseAIResponse t
      = Except.error (ParseErr.unparseable (cleanup t)
          ("JSON parsing failed after 4 attempts: " ++ e4)) := by
  simp [parseAIResponse, ht, h1, h2, h3, h4]

/-- Witness for C6 at a concrete input on which every strategy fails. -/
theorem c6_unparseable_diagnostics_witness :
    parseAIResponse "```json\n\x7boops\n```"
      = Except.error (ParseErr.unparseable "\x7boops"
          ("JSON parsing failed after 4 attempts: "
            ++ "Expected property name in JSON object")) :=
  c6_unparseable_diagnostics "```json\n\x7boops\n```"
    "Expected property name in JSON object"
    "Expected property name in JSON object"
    "Expected property name in JSON object"
    "Expected property name in JSON object"
    (by decide) rfl rfl rfl rfl

/-- Counterexample to C6 as stated: for a fenced unparseable input, the
failure carries the cleaned text, which differs from the original raw
text. -/
theorem c6_counterexample :
    carriedRaw (parseAIResponse "```json\n\x7boops\n```") = some "\x7boops"
    ∧ "\x7boops" ≠ "```json\n\x7boops\n```" :=
  ⟨rfl, by decide⟩

/-- Dropping leading whitespace is the identity when the head is not
whitespace. -/
theorem dropWhile_jsWs_eq_self (l : List Char)
    (h : ∀ c ∈ l.head?, jsWs c = false) : l.dropWhile jsWs = l := by
  cases l with
  | nil => rfl
  | cons c t =>
    have hc : jsWs c = false := h c rfl
    simp [List.dropWhile_cons, hc]

/-- Trimming is the identity when neither end is whitespace. -/
theorem trimL_eq_self (l : List Char)
    (h1 : ∀ c ∈ l.head?, jsWs c = false)
    (h2 : ∀ c ∈ l.getLast?, jsWs c = false) : trimL l = l := by
  unfold trimL
  rw [dropWhile_jsWs_eq_self l h1,
    dropWhile_jsWs_eq_self l.reverse (by simpa using h2),
    List.reverse_reverse]

/-- A prefix check against the text it prefixes succeeds. -/
theorem startsWithL_append_self : ∀ p rest : List Char,
    startsWithL p (p ++ rest) = true := by
  intro p rest
  induction p with
  | nil => rfl
  | cons a t ih => simp [startsWithL, ih]

/-- Reversing a closing-fence suffix exposes the backticks. -/
theorem reverse_close (X : List Char) :
    (X ++ '\n' :: fbare).reverse = bt :: bt :: bt :: '\n' :: X.reverse := by
  simp [fbare]

/-- The json-fence opener is stripped together with following whitespace. -/
theorem dropOpenJson_fenced (X : List Char) :
    dropOpenJson (fjson ++ X) = X.dropWhile jsWs := by
  unfold dropOpenJson
  rw [if_pos (startsWithL_append_self fjson X), List.drop_left' (by rfl)]

/-- The bare-fence opener is stripped together with following whitespace. -/
theorem dropOpenBare_fenced (X : List Char) :
    dropOpenBare (fbare ++ X) = X.dropWhile jsWs := by
  unfold dropOpenBare
  rw [if_pos (startsWithL_append_self fbare X), List.drop_left' (by rfl)]

/-- Stripping a closing fence removes the backticks and the whitespace run
before them, stopping at a non-whitespace tail character. -/
theorem dropClose_fenced (X : List Char) (x0 : Char) (r : List Char)
    (hrev : X.reverse = x0 :: r) (hx0 : jsWs x0 = false) :
    dropClose (X ++ '\n' :: fbare) = X := by
  unfold dropClose
  rw [reverse_close]
  rw [if_pos
    (show startsWithL fbare (bt :: bt :: bt :: '\n' :: X.reverse) = true from rfl)]
  rw [show (bt :: bt :: bt :: '\n' :: X.reverse).drop 3 = '\n' :: X.reverse from rfl]
  rw [hrev]
  rw [show List.dropWhile jsWs ('\n' :: x0 :: r) = List.dropWhile jsWs (x0 :: r) from rfl]
  rw [List.dropWhile_cons, if_neg (by simp [hx0])]
  rw [← hrev, List.reverse_reverse]

/-- A json-fenced text begins with a backtick. -/
theorem head?_fjson (X : List Char) : (fjson ++ X).head? = some bt := rfl

/-- A bare-fenced text begins with a backtick. -/
theorem head?_fbare (X : List Char) : (fbare ++ X).head? = some bt := rfl

/-- A fence-closed text ends with a backtick. -/
theorem getLast?_fenced (X : List Char) :
    (X ++ ('\n' :: fbare)).getLast? = some bt := by
  rw [List.getLast?_eq_head?_reverse, reverse_close]
  rfl

/-- A text whose first character is not a backtick does not start with the
bare fence. -/
theorem startsWithL_fbare_false (x : Char) (l : List Char) (h : bt ≠ x) :
    startsWithL fbare (x :: l) = false := by
  show (decide (bt = x) && startsWithL [bt, bt] l) = false
  rw [decide_eq_false h]
  rfl

/-- Dropping an open bare fence from a text that does not start with a
backtick is the identity. -/
theorem dropOpenBare_notfence (x : Char) (r : List Char) (h : bt ≠ x) :
    dropOpenBare (x :: r) = x :: r := by
  unfold dropOpenBare
  rw [if_neg (by rw [startsWithL_fbare_false x r h]; simp)]

/-- Dropping a close fence from a text that does not end with a backtick is
the identity. -/
theorem dropClose_notfence (l : List Char) (x : Char) (r : List Char)
    (hrev : l.reverse = x :: r) (h : bt ≠ x) : dropClose l = l := by
  unfold dropClose
  rw [hrev]
  rw [if_neg (by rw [startsWithL_fbare_false x r h]; simp)]

/-- Dropping whitespace from a text headed by a non-whitespace character is
the identity. -/
theorem dropWhile_jsWs_cons (x : Char) (l : List Char) (h : jsWs x = false) :
    List.dropWhile jsWs (x :: l) = x :: l := by
  rw [List.dropWhile_cons]
  simp [h]

/-- A prefix check that fails on a text keeps failing when the text is
extended past a character the pattern does not contain. -/
theorem startsWithL_append_cons_false (p : List Char) :
    ∀ (tag rest : List Char) (x : Char), startsWithL p tag = false → x ∉ p →
      startsWithL p (tag ++ x :: rest) = false := by
  induction p with
  | nil => intro tag rest x hp hx; simp [startsWithL] at hp
  | cons q ps ih =>
    intro tag rest x hp hx
    cases tag with
    | nil =>
      have hqx : ¬ q = x := fun h => hx (by rw [h]; exact List.mem_cons_self _ _)
      show (decide (q = x) && startsWithL ps rest) = false
      rw [decide_eq_false hqx]
      rfl
    | cons c tl =>
      show (decide (q = c) && startsWithL ps (tl ++ x :: rest)) = false
      by_cases hqc : q = c
      · have h1 : startsWithL ps tl = false := by
          have h2 : (decide (q = c) && startsWithL ps tl) = false := hp
          rwa [decide_eq_true hqc, Bool.true_and] at h2
        rw [ih tl rest x h1 (fun h => hx (List.mem_cons_of_mem _ h)), Bool.and_false]
      · rw [decide_eq_false hqc]
        rfl

/-- Matching the json fence against a bare-fenced text reduces to matching
the four tag characters against what follows the backticks. -/
theorem startsWithL_fjson_split (Y : List Char) :
    startsWithL fjson (fbare ++ Y) = startsWithL ['j', 's', 'o', 'n'] Y := rfl

/-- Claim C7 (amended): before any strategy runs, `parseAIResponse` trims
surrounding whitespace and strips a leading/trailing fence pair when the
opening fence is bare or tagged exactly `json`; for any other language tag
the backticks are removed together with any leading `json` prefix of the
tag, leaving the remainder of the tag text in place — a tag that does not
begin with `json` (such as `javascript`) keeps its full text, while a tag
beginning with `json` (such as `json5`) keeps only what follows that
prefix.  The body `b` is any nonempty backtick-free text with
non-whitespace ends, and `tag` (in conjunct 3 the whole tag, in conjunct 4
the part of the tag after `json`) is any nonempty backtick-free text whose
head is not whitespace. -/
theorem c7_fence_stripping (b tag : List Char) (hne : b ≠ [])
    (hhead : ∀ c ∈ b.head?, jsWs c = false)
    (hlast : ∀ c ∈ b.getLast?, jsWs c = false)
    (hbt : bt ∉ b)
    (htagne : tag ≠ [])
    (htaghead : ∀ c ∈ tag.head?, jsWs c = false)
    (htagbt : bt ∉ tag) :
    cleanupL (fjson ++ ('\n' :: (b ++ ('\n' :: fbare)))) = b
    ∧ cleanupL (fbare ++ ('\n' :: (b ++ ('\n' :: fbare)))) = b
    ∧ (startsWithL ['j', 's', 'o', 'n'] tag = false →
        cleanupL (fbare ++ (tag ++ ('\n' :: (b ++ ('\n' :: fbare)))))
          = tag ++ ('\n' :: b))
    ∧ cleanupL (fjson ++ (tag ++ ('\n' :: (b ++ ('\n' :: fbare)))))
        = tag ++ ('\n' :: b) := by
  obtain ⟨c, b', rfl⟩ : ∃ c b', b = c :: b' := by
    cases b with
    | nil => exact absurd rfl hne
    | cons c b' => exact ⟨c, b', rfl⟩
  obtain ⟨d, r, hbr⟩ : ∃ d r, (c :: b').reverse = d :: r := by
    cases hh : (c :: b').reverse with
    | nil => simp at hh
    | cons d r => exact ⟨d, r, rfl⟩
  obtain ⟨t0, ttl, rfl⟩ : ∃ t0 ttl, tag = t0 :: ttl := by
    cases tag with
    | nil => exact absurd rfl htagne
    | cons t0 ttl => exact ⟨t0, ttl, rfl⟩
  have hc : jsWs c = false := hhead c rfl
  have hdlast : (c :: b').getLast? = some d := by
    rw [List.getLast?_eq_head?_reverse, hbr]
    rfl
  have hdws : jsWs d = false := hlast d (by rw [hdlast]; rfl)
  have hdmem : d ∈ c :: b' :=
    List.mem_reverse.mp (by rw [hbr]; exact List.mem_cons_self _ _)
  have hcbt : bt ≠ c := fun h => hbt (by rw [h]; exact List.mem_cons_self _ _)
  have hdbt : bt ≠ d := fun h => hbt (h ▸ hdmem)
  have ht0 : jsWs t0 = false := htaghead t0 rfl
  have ht0bt : bt ≠ t0 := fun h => htagbt (by rw [h]; exact List.mem_cons_self _ _)
  refine ⟨?_, ?_, ?_, ?_⟩
  · -- json-tagged fence
    unfold cleanupL
    rw [show trimL (fjson ++ ('\n' :: ((c :: b') ++ ('\n' :: fbare))))
        = fjson ++ ('\n' :: ((c :: b') ++ ('\n' :: fbare))) from
      trimL_eq_self _
        (by intro x hx; rw [head?_fjson] at hx
            obtain rfl : bt = x := by simpa using hx
            rfl)
        (by intro x hx
            rw [show fjson ++ ('\n' :: ((c :: b') ++ ('\n' :: fbare)))
                = (fjson ++ ('\n' :: (c :: b'))) ++ ('\n' :: fbare) from rfl,
              getLast?_fenced] at hx
            obtain rfl : bt = x := by simpa using hx
            rfl)]
    rw [dropOpenJson_fenced]
    rw [show List.dropWhile jsWs ('\n' :: ((c :: b') ++ ('\n' :: fbare)))
        = List.dropWhile jsWs (c :: (b' ++ ('\n' :: fbare))) from rfl]
    rw [dropWhile_jsWs_cons c _ hc]
    rw [show (c :: (b' ++ ('\n' :: fbare))) = (c :: b') ++ ('\n' :: fbare) from rfl]
    rw [dropClose_fenced (c :: b') d r hbr hdws]
    rw [dropOpenBare_notfence c b' hcbt]
    rw [dropClose_notfence (c :: b') d r hbr hdbt]
  · -- bare fence
    unfold cleanupL
    rw [show trimL (fbare ++ ('\n' :: ((c :: b') ++ ('\n' :: fbare))))
        = fbare ++ ('\n' :: ((c :: b') ++ ('\n' :: fbare))) from
      trimL_eq_self _
        (by intro x hx; rw [head?_fbare] at hx
            obtain rfl : bt = x := by simpa using hx
            rfl)
        (by intro x hx
            rw [show fbare ++ ('\n' :: ((c :: b') ++ ('\n' :: fbare)))
                = (fbare ++ ('\n' :: (c :: b'))) ++ ('\n' :: fbare) from rfl,
              getLast?_fenced] at hx
            obtain rfl : bt = x := by simpa using hx
            rfl)]
    rw [show dropOpenJson (fbare ++ ('\n' :: ((c :: b') ++ ('\n' :: fbare))))
        = fbare ++ ('\n' :: ((c :: b') ++ ('\n' :: fbare))) from by
      unfold dropOpenJson
      rw [if_neg (by
        rw [show startsWithL fjson (fbare ++ ('\n' :: ((c :: b') ++ ('\n' :: fbare))))
            = false from rfl]
        simp)]]
    rw [show fbare ++ ('\n' :: ((c :: b') ++ ('\n' :: fbare)))
        = (fbare ++ ('\n' :: (c :: b'))) ++ ('\n' :: fbare) from rfl]
    rw [dropClose_fenced (fbare ++ ('\n' :: (c :: b'))) d (r ++ ('\n' :: fbare))
      (by rw [List.reverse_append,
            show ('\n' :: (c :: b')).reverse = (c :: b').reverse ++ ['\n'] from by simp,
            hbr]
          simp [fbare])
      hdws]
    rw [dropOpenBare_fenced]
    rw [show List.dropWhile jsWs ('\n' :: (c :: b'))
        = List.dropWhile jsWs (c :: b') from rfl]
    rw [dropWhile_jsWs_cons c _ hc]
    rw [dropClose_notfence (c :: b') d r hbr hdbt]
  · -- tag without a json prefix: only the backticks are removed
    intro hjson
    unfold cleanupL
    rw [show trimL (fbare ++ ((t0 :: ttl)
          ++ ('\n' :: ((c :: b') ++ ('\n' :: fbare)))))
        = fbare ++ ((t0 :: ttl) ++ ('\n' :: ((c :: b') ++ ('\n' :: fbare)))) from
      trimL_eq_self _
        (by intro x hx; rw [head?_fbare] at hx
            obtain rfl : bt = x := by simpa using hx
            rfl)
        (by intro x hx
            rw [show fbare ++ ((t0 :: ttl)
                  ++ ('\n' :: ((c :: b') ++ ('\n' :: fbare))))
                = (fbare ++ ((t0 :: ttl) ++ ('\n' :: (c :: b'))))
                  ++ ('\n' :: fbare) from by simp,
              getLast?_fenced] at hx
            obtain rfl : bt = x := by simpa using hx
            rfl)]
    rw [show dropOpenJson (fbare ++ ((t0 :: ttl)
          ++ ('\n' :: ((c :: b') ++ ('\n' :: fbare)))))
        = fbare ++ ((t0 :: ttl) ++ ('\n' :: ((c :: b') ++ ('\n' :: fbare)))) from by
      unfold dropOpenJson
      rw [if_neg (by
        rw [startsWithL_fjson_split,
          startsWithL_append_cons_false ['j', 's', 'o', 'n'] (t0 :: ttl)
            ((c :: b') ++ ('\n' :: fbare)) '\n' hjson (by decide)]
        simp)]]
    rw [show fbare ++ ((t0 :: ttl) ++ ('\n' :: ((c :: b') ++ ('\n' :: fbare))))
        = (fbare ++ ((t0 :: ttl) ++ ('\n' :: (c :: b')))) ++ ('\n' :: fbare)
        from by simp]
    rw [dropClose_fenced (fbare ++ ((t0 :: ttl) ++ ('\n' :: (c :: b')))) d
      (r ++ ('\n' :: ((t0 :: ttl).reverse ++ fbare)))
      (by rw [List.reverse_append, List.reverse_append,
            show ('\n' :: (c :: b')).reverse = (c :: b').reverse ++ ['\n'] from by simp,
            hbr]
          simp [fbare])
      hdws]
    rw [dropOpenBare_fenced]
    rw [show List.dropWhile jsWs ((t0 :: ttl) ++ ('\n' :: (c :: b')))
        = List.dropWhile jsWs (t0 :: (ttl ++ ('\n' :: (c :: b')))) from rfl]
    rw [dropWhile_jsWs_cons t0 _ ht0]
    rw [show t0 :: (ttl ++ ('\n' :: (c :: b')))
        = (t0 :: ttl) ++ ('\n' :: (c :: b')) from rfl]
    rw [dropClose_notfence ((t0 :: ttl) ++ ('\n' :: (c :: b'))) d
      (r ++ ('\n' :: (t0 :: ttl).reverse))
      (by rw [List.reverse_append,
            show ('\n' :: (c :: b')).reverse = (c :: b').reverse ++ ['\n'] from by simp,
            hbr]
          simp)
      hdbt]
  · -- tag beginning with json: the backticks and the json prefix are removed
    unfold cleanupL
    rw [show trimL (fjson ++ ((t0 :: ttl)
          ++ ('\n' :: ((c :: b') ++ ('\n' :: fbare)))))
        = fjson ++ ((t0 :: ttl) ++ ('\n' :: ((c :: b') ++ ('\n' :: fbare)))) from
      trimL_eq_self _
        (by intro x hx; rw [head?_fjson] at hx
            obtain rfl : bt = x := by simpa using hx
            rfl)
        (by intro x hx
            rw [show fjson ++ ((t0 :: ttl)
                  ++ ('\n' :: ((c :: b') ++ ('\n' :: fbare))))
                = (fjson ++ ((t0 :: ttl) ++ ('\n' :: (c :: b'))))
                  ++ ('\n' :: fbare) from by simp,
              getLast?_fenced] at hx
            obtain rfl : bt = x := by simpa using hx
            rfl)]
    rw [dropOpenJson_fenced]
    rw [show List.dropWhile jsWs ((t0 :: ttl)
          ++ ('\n' :: ((c :: b') ++ ('\n' :: fbare))))
        = List.dropWhile jsWs (t0 :: (ttl
          ++ ('\n' :: ((c :: b') ++ ('\n' :: fbare))))) from rfl]
    rw [dropWhile_jsWs_cons t0 _ ht0]
    rw [show t0 :: (ttl ++ ('\n' :: ((c :: b') ++ ('\n' :: fbare))))
        = ((t0 :: ttl) ++ ('\n' :: (c :: b'))) ++ ('\n' :: fbare) from by simp]
    rw [dropClose_fenced ((t0 :: ttl) ++ ('\n' :: (c :: b'))) d
      (r ++ ('\n' :: (t0 :: ttl).reverse))
      (by rw [List.reverse_append,
            show ('\n' :: (c :: b')).reverse = (c :: b').reverse ++ ['\n'] from by simp,
            hbr]
          simp)
      hdws]
    rw [show (t0 :: ttl) ++ ('\n' :: (c :: b'))
        = t0 :: (ttl ++ ('\n' :: (c :: b'))) from rfl]
    rw [dropOpenBare_notfence t0 (ttl ++ ('\n' :: (c :: b'))) ht0bt]
    rw [show t0 :: (ttl ++ ('\n' :: (c :: b')))
        = (t0 :: ttl) ++ ('\n' :: (c :: b')) from rfl]
    rw [dropClose_notfence ((t0 :: ttl) ++ ('\n' :: (c :: b'))) d
      (r ++ ('\n' :: (t0 :: ttl).reverse))
      (by rw [List.reverse_append,
            show ('\n' :: (c :: b')).reverse = (c :: b').reverse ++ ['\n'] from by simp,
            hbr]
          simp)
      hdbt]

/-- Witness for C7 at the concrete one-character body `x`, with the
non-json tag `javascript` and the json-prefixed tag `json5` (whose
remainder after the prefix is `5`). -/
theorem c7_fence_stripping_witness :
    cleanupL (fjson ++ ('\n' :: (['x'] ++ ('\n' :: fbare)))) = ['x']
    ∧ cleanupL (fbare ++ ('\n' :: (['x'] ++ ('\n' :: fbare)))) = ['x']
    ∧ cleanupL (fbare ++ (['j', 'a', 'v', 'a', 's', 'c', 'r', 'i', 'p', 't']
        ++ ('\n' :: (['x'] ++ ('\n' :: fbare)))))
      = ['j', 'a', 'v', 'a', 's', 'c', 'r', 'i', 'p', 't'] ++ ('\n' :: ['x'])
    ∧ cleanupL (fjson ++ (['5'] ++ ('\n' :: (['x'] ++ ('\n' :: fbare)))))
      = ['5'] ++ ('\n' :: ['x']) :=
  ⟨(c7_fence_stripping ['x'] ['j', 'a', 'v', 'a', 's', 'c', 'r', 'i', 'p', 't']
      (by simp)
      (by intro c hc; simp at hc; subst hc; rfl)
      (by intro c hc; simp at hc; subst hc; rfl)
      (by decide) (by simp)
      (by intro c hc; simp at hc; subst hc; rfl)
      (by decide)).1,
   (c7_fence_stripping ['x'] ['j', 'a', 'v', 'a', 's', 'c', 'r', 'i', 'p', 't']
      (by simp)
      (by intro c hc; simp at hc; subst hc; rfl)
      (by intro c hc; simp at hc; subst hc; rfl)
      (by decide) (by simp)
      (by intro c hc; simp at hc; subst hc; rfl)
      (by decide)).2.1,
   (c7_fence_stripping ['x'] ['j', 'a', 'v', 'a', 's', 'c', 'r', 'i', 'p', 't']
      (by simp)
      (by intro c hc; simp at hc; subst hc; rfl)
      (by intro c hc; simp at hc; subst hc; rfl)
      (by decide) (by simp)
      (by intro c hc; simp at hc; subst hc; rfl)
      (by decide)).2.2.1 (by decide),
   (c7_fence_stripping ['x'] ['5']
      (by simp)
      (by intro c hc; simp at hc; subst hc; rfl)
      (by intro c hc; simp at hc; subst hc; rfl)
      (by decide) (by simp)
      (by intro c hc; simp at hc; subst hc; rfl)
      (by decide)).2.2.2⟩

/-- Counterexample to C7 as stated: a fence tagged `javascript` is not
stripped — only its backticks are removed — and a fence tagged `json5`
loses the `json` prefix of its tag, so in neither case is the cleaned
text the fenced body. -/
theorem c7_counterexample :
    cleanup "```javascript\n\x7b\"a\": \"b\"\x7d\n```"
      = "javascript\n\x7b\"a\": \"b\"\x7d"
    ∧ cleanup "```javascript\n\x7b\"a\": \"b\"\x7d\n```" ≠ "\x7b\"a\": \"b\"\x7d"
    ∧ cleanup "```json5\n\x7b\"a\": \"b\"\x7d\n```" = "5\n\x7b\"a\": \"b\"\x7d" :=
  ⟨rfl, by decide, rfl⟩

/-! ### Claim theorems: global store, orchestrator and retry loop -/

/-- Claim C8: in a well-formed state, invoking a history-store operation on
a field key outside the declared set fails (the `undefined` map access
throws, the failure mode the specification's taxonomy calls
`UnknownField`), while declared keys succeed. -/
theorem c8_unknown_field (st : AppState) (f o a : String) (now : Nat) (d : Int)
    (hv : ValidState st) :
    (BIO_FIELDS.contains f = false →
      saveAIVersionWithOriginal f o a now st = Except.error JsErr.typeError
      ∧ navigateVersion f d st = Except.error JsErr.typeError)
    ∧ (BIO_FIELDS.contains f = true →
      (∃ st1, saveAIVersionWithOriginal f o a now st = Except.ok st1)
      ∧ ∃ st2, navigateVersion f d st = Except.ok st2) := by
  constructor
  · intro hf
    have h0 : st.fields f = none := by
      have hv' := hv f
      rw [hf] at hv'
      cases hsf : st.fields f with
      | none => rfl
      | some fs => rw [hsf] at hv'; simp at hv'
    constructor <;> simp [saveAIVersionWithOriginal, navigateVersion, h0]
  · intro hf
    obtain ⟨fs, hfs⟩ : ∃ fs, st.fields f = some fs := by
      have hv' := hv f
      rw [hf] at hv'
      cases hsf : st.fields f with
      | none => rw [hsf] at hv'; simp at hv'
      | some fs => exact ⟨fs, rfl⟩
    exact ⟨⟨⟨fun f1 => if f1 = f then some (saveField o a now fs) else st.fields f1⟩,
        by simp [saveAIVersionWithOriginal, hfs]⟩,
      ⟨⟨fun f1 => if f1 = f then some (navigateField d fs) else st.fields f1⟩,
        by simp [navigateVersion, hfs]⟩⟩

/-- Witness for C8: the character-sheet key `level` is outside the bio
field set, and both store operations fail on it in the initial state. -/
theorem c8_unknown_field_witness :
    saveAIVersionWithOriginal "level" "x" "y" 0 initState
      = Except.error JsErr.typeError
    ∧ navigateVersion "level" 1 initState = Except.error JsErr.typeError :=
  (c8_unknown_field initState "level" "x" "y" 0 1
    (by intro f
        simp only [initState]
        cases h : BIO_FIELDS.contains f <;> rfl)).1
    (by decide)

/-- One loop iteration of `updateBioFields` leaves every other field's
state untouched. -/
theorem updateBioFieldsStep_other (bioData : String → Option String) (now : Nat)
    (st : AppState) (g f : String) (hne : f ≠ g) :
    (updateBioFieldsStep bioData now st g).fields f = st.fields f := by
  unfold updateBioFieldsStep
  cases bioData g with
  | none => rfl
  | some v =>
    dsimp only
    split
    · rfl
    · cases st.fields g with
      | none => rfl
      | some fs => simp [hne]

/-- One loop iteration of `updateBioFields` is the identity when the parsed
value for the field is the falsy empty string. -/
theorem updateBioFieldsStep_empty (bioData : String → Option String) (now : Nat)
    (st : AppState) (f : String) (hf : bioData f = some "") :
    updateBioFieldsStep bioData now st f = st := by
  unfold updateBioFieldsStep
  rw [hf]
  rfl

/-- Claim C10: when the parsed AI result maps a field to the falsy empty
string, `updateBioFields` skips that field entirely — its history, cursor,
displayed value and visual state are all left unchanged, even though the
field is present as a key in the parsed result. -/
theorem c10_empty_value_skips (bioData : String → Option String) (now : Nat)
    (st : AppState) (f : String) (hf : bioData f = some "") :
    (updateBioFields bioData now st).fields f = st.fields f := by
  unfold updateBioFields
  suffices h : ∀ (l : List String) (st : AppState),
      (l.foldl (updateBioFieldsStep bioData now) st).fields f = st.fields f from
    h BIO_FIELDS st
  intro l
  induction l with
  | nil => intro st; rfl
  | cons g t ih =>
    intro st
    rw [List.foldl_cons, ih]
    by_cases hg : f = g
    · subst hg
      rw [updateBioFieldsStep_empty bioData now st f hf]
    · exact updateBioFieldsStep_other bioData now st g f hg

/-- Witness for C10: a parsed result that maps `appearance` to the empty
string leaves the `appearance` field of the initial state unchanged. -/
theorem c10_empty_value_skips_witness :
    (updateBioFields (fun g => if g = "appearance" then some "" else none) 0
        initState).fields "appearance"
      = initState.fields "appearance" :=
  c10_empty_value_skips (fun g => if g = "appearance" then some "" else none) 0
    initState "appearance" rfl

/-- Every wait in the retry loop's trace is the fixed delay. -/
theorem goAttempts_wait_mem (outcome : Nat → Bool) :
    ∀ (fuel k m : Nat),
      GenEvent.wait m ∈ (goAttempts outcome k fuel).1 → m = retryDelayMs := by
  intro fuel
  induction fuel with
  | zero => intro k m hm; simp [goAttempts] at hm
  | succ f ih =>
    intro k m hm
    unfold goAttempts at hm
    by_cases hk : outcome k = true
    · rw [if_pos hk] at hm
      simp at hm
    · rw [if_neg hk] at hm
      by_cases hmax : k = maxAttempts
      · rw [if_pos hmax] at hm
        simp at hm
      · rw [if_neg hmax] at hm
        simp only [List.mem_cons] at hm
        rcases hm with hm | hm | hm
        · exact absurd hm (by simp)
        · injection hm
        · exact ih (k + 1) m hm

/-- Every request in the retry loop's trace carries exactly the files
computed by `attemptFileIds` for its attempt number, which stays within
the bound. -/
theorem goAttempts_request_mem (outcome : Nat → Bool) :
    ∀ (fuel k : Nat) (j : Nat) (files : List String),
      k + fuel = maxAttempts + 1 → 1 ≤ k →
      GenEvent.request j files ∈ (goAttempts outcome k fuel).1 →
      files = attemptFileIds j pdfFileIds ∧ 1 ≤ j ∧ j ≤ maxAttempts := by
  intro fuel
  induction fuel with
  | zero => intro k j files hfuel hk hm; simp [goAttempts] at hm
  | succ f ih =>
    intro k j files hfuel hk hm
    have hkmax : k ≤ maxAttempts := by
      have : maxAttempts = 3 := rfl
      omega
    unfold goAttempts at hm
    by_cases hko : outcome k = true
    · rw [if_pos hko] at hm
      simp only [List.mem_singleton] at hm
      injection hm with hj hf
      subst hj; subst hf
      exact ⟨rfl, hk, hkmax⟩
    · rw [if_neg hko] at hm
      by_cases hmax : k = maxAttempts
      · rw [if_pos hmax] at hm
        simp only [List.mem_singleton] at hm
        injection hm with hj hf
        subst hj; subst hf
        exact ⟨rfl, hk, hkmax⟩
      · rw [if_neg hmax] at hm
        simp only [List.mem_cons] at hm
        rcases hm with hm | hm | hm
        · injection hm with hj hf
          subst hj; subst hf
          exact ⟨rfl, hk, hkmax⟩
        · injection hm
        · exact ih (k + 1) j files (by omega) (by omega) hm

/-- The retry loop makes at most `fuel` requests. -/
theorem goAttempts_request_count (outcome : Nat → Bool) :
    ∀ (fuel k : Nat),
      ((goAttempts outcome k fuel).1.filter isRequest).length ≤ fuel := by
  intro fuel
  induction fuel with
  | zero => intro k; simp [goAttempts]
  | succ f ih =>
    intro k
    unfold goAttempts
    by_cases hk : outcome k = true
    · rw [if_pos hk]
      simp [isRequest]
    · rw [if_neg hk]
      by_cases hmax : k = maxAttempts
      · rw [if_pos hmax]
        simp [isRequest]
      · rw [if_neg hmax]
        have := ih (k + 1)
        simp only [List.filter_cons, List.length_cons]
        simp [isRequest]
        omega

/-- The retry loop ends in the terminal failure exactly when every attempt
in its remaining range fails. -/
theorem goAttempts_error_iff (outcome : Nat → Bool) :
    ∀ (fuel k : Nat), k + fuel = maxAttempts + 1 → k ≤ maxAttempts →
      ((goAttempts outcome k fuel).2
          = Except.error ("API request failed after " ++ toString maxAttempts
            ++ " attempts")
        ↔ ∀ j, k ≤ j → j ≤ maxAttempts → outcome j = false) := by
  intro fuel
  induction fuel with
  | zero =>
    intro k hfuel hkmax
    exact absurd hfuel (by omega)
  | succ f ih =>
    intro k hfuel hkmax
    unfold goAttempts
    by_cases hko : outcome k = true
    · rw [if_pos hko]
      constructor
      · intro h; exact absurd h (by simp)
      · intro h
        have := h k le_rfl hkmax
        rw [hko] at this
        exact absurd this (by simp)
    · have hkf : outcome k = false := by
        revert hko; cases outcome k <;> simp
      rw [if_neg hko]
      by_cases hmax : k = maxAttempts
      · rw [if_pos hmax]
        simp only [eq_self_iff_true, true_iff]
        intro j hj1 hj2
        have : j = k := by omega
        subst this
        exact hkf
      · rw [if_neg hmax]
        rw [ih (k + 1) (by omega) (by omega)]
        constructor
        · intro h j hj1 hj2
          by_cases hjk : j = k
          · subst hjk; exact hkf
          · exact h j (by omega) hj2
        · intro h j hj1 hj2
          exact h j (by omega) hj2

/-- Claim C9 (amended): a bio-generation request makes at most 3 network
attempts with a fixed 1000 ms delay between them, failure becomes terminal
exactly when all three attempts fail, and the payload narrowing is: the
third attempt drops all reference files, while the second narrows to the
first file only when more than one file was configured — each attempt `k`
sends exactly `attemptFileIds k pdfFileIds`.  With the source's single
pre-uploaded file the second attempt resends the same payload as the
first: see `c9_counterexample`. -/
theorem c9_retry_schedule (outcome : Nat → Bool) :
    ((generateBioTrace outcome).1.filter isRequest).length ≤ maxAttempts
    ∧ (∀ m, GenEvent.wait m ∈ (generateBioTrace outcome).1 → m = retryDelayMs)
    ∧ (∀ k files, GenEvent.request k files ∈ (generateBioTrace outcome).1 →
        files = attemptFileIds k pdfFileIds ∧ 1 ≤ k ∧ k ≤ maxAttempts)
    ∧ (∀ ids : List String, attemptFileIds 3 ids = [])
    ∧ (∀ ids : List String, 1 < ids.length → attemptFileIds 2 ids = ids.take 1)
    ∧ ((generateBioTrace outcome).2
          = Except.error "API request failed after 3 attempts"
        ↔ outcome 1 = false ∧ outcome 2 = false ∧ outcome 3 = false) := by
  refine ⟨goAttempts_request_count outcome 3 1,
    fun m => goAttempts_wait_mem outcome 3 1 m,
    fun k files => goAttempts_request_mem outcome 3 1 k files rfl le_rfl,
    ?_, ?_, ?_⟩
  · intro ids
    unfold attemptFileIds
    rw [if_neg (by simp), if_pos rfl]
  · intro ids h
    unfold attemptFileIds
    rw [if_pos ⟨rfl, h⟩]
  · show (goAttempts outcome 1 3).2
          = Except.error ("API request failed after " ++ toString maxAttempts
            ++ " attempts")
        ↔ outcome 1 = false ∧ outcome 2 = false ∧ outcome 3 = false
    rw [goAttempts_error_iff outcome 3 1 rfl (by decide)]
    constructor
    · intro h
      exact ⟨h 1 (by omega) (by decide), h 2 (by omega) (by decide),
        h 3 (by omega) (by decide)⟩
    · intro h j hj1 hj3
      have hj : j = 1 ∨ j = 2 ∨ j = 3 := by
        have : maxAttempts = 3 := rfl
        omega
      rcases hj with rfl | rfl | rfl
      · exact h.1
      · exact h.2.1
      · exact h.2.2

/-- Witness for C9 on the all-failures outcome: the request bound, the
second attempt's payload, the third attempt's empty file list, the
narrowing when more than one file is configured, and the terminal error. -/
theorem c9_retry_schedule_witness :
    ((generateBioTrace (fun _ => false)).1.filter isRequest).length ≤ maxAttempts
    ∧ (pdfFileIds = attemptFileIds 2 pdfFileIds ∧ 1 ≤ 2 ∧ 2 ≤ maxAttempts)
    ∧ attemptFileIds 3 ["a", "b"] = []
    ∧ attemptFileIds 2 ["a", "b"] = ["a", "b"].take 1
    ∧ (generateBioTrace (fun _ => false)).2
        = Except.error "API request failed after 3 attempts" :=
  ⟨(c9_retry_schedule (fun _ => false)).1,
   (c9_retry_schedule (fun _ => false)).2.2.1 2 pdfFileIds (by decide),
   (c9_retry_schedule (fun _ => false)).2.2.2.1 ["a", "b"],
   (c9_retry_schedule (fun _ => false)).2.2.2.2.1 ["a", "b"] (by decide),
   (c9_retry_schedule (fun _ => false)).2.2.2.2.2.mpr ⟨rfl, rfl, rfl⟩⟩

/-- Counterexample to C9 as stated: with the source's single pre-uploaded
reference file, the second attempt sends exactly the same file list as the
first, not fewer files. -/
theorem c9_counterexample :
    GenEvent.request 1 pdfFileIds ∈ (generateBioTrace (fun _ => false)).1
    ∧ GenEvent.request 2 pdfFileIds ∈ (generateBioTrace (fun _ => false)).1
    ∧ ¬ (attemptFileIds 2 pdfFileIds).length
        < (attemptFileIds 1 pdfFileIds).length := by
  decide
